import Mathlib

/-!
Verification of the IMX335 raw-capture processing pipeline.

The development shallowly embeds the two Python source files:

* process_raw_imx335.py — the RAW10 unpacker (unpack_raw10), the minimal
  ISP tone-mapping stage (gamma and linear paths of process_file), and the
  batch orchestrator (main / process_file);
* imx335.py — the preview's gain-to-ISO estimation (power-law mapping
  snapped to the nearest standard ISO, inside SimpleCameraApp.run).

Byte buffers are lists of naturals reduced modulo 256 on entry (modelling
astype(np.uint8)); pixel samples are naturals; the floating-point
arithmetic of the gain mapper and of the gamma tone curve is modelled over
the real numbers.
-/

/-- Splits a list into k consecutive chunks of n elements each (the
functional reading of a numpy reshape to k rows of n columns; the caller
checks that the list has exactly k * n elements). -/
def chunksAux (n : Nat) : Nat → List Nat → List (List Nat)
  | 0, _ => []
  | k + 1, l => l.take n :: chunksAux n k (l.drop n)

/-- Reconstructs pixel i (i = 0..3) of one 5-byte RAW10 block: bytes 0-3
are the 8 MSBs of pixels 0-3, byte 4 holds the 2-bit LSBs packed as
[p3:2][p2:2][p1:2][p0:2], so pixel i is (msb <<< 2) ||| ((lsb >>> 2*i) &&& 3),
exactly the shift-and-combine step of unpack_raw10. -/
def pixOfBlock (b : List Nat) (i : Nat) : Nat :=
  (b.getD i 0 <<< 2) ||| ((b.getD 4 0 >>> (2 * i)) &&& 3)

/-- Outcome of unpack_raw10: a successfully unpacked row-major mosaic, the
caught ValueError of the first reshape (the function prints a shape-mismatch
message and returns None), or an exception that escapes the function
uncaught (ZeroDivisionError for height = 0, the ValueError of the second
reshape, or a failed scatter assignment). -/
inductive UnpackResult where
  | ok : List Nat → UnpackResult
  | shapeMismatch : UnpackResult
  | uncaught : UnpackResult
deriving DecidableEq

/-- Shallow embedding of unpack_raw10(packed_array, width, height) from
process_raw_imx335.py.  It follows the source line by line:
flatten + astype(np.uint8) (the mod-256 map); stride = size // height;
valid_packed_width = int(width * 1.25) (exact for any realistic width, so
modelled as width * 5 / 4); the first reshape to (height, stride), whose
ValueError is caught and turned into a None return; the crop
raw_rows[:, :valid_packed_width], which numpy silently clips to the row
length when valid_packed_width exceeds the stride; the second reshape to
(n_blocks, 5), whose ValueError is NOT caught; and the strided scatter
unpacked[i::4] = p_i, which succeeds when n_pixels is a multiple of 4
(slice lengths all equal n_blocks) or, by numpy length-1 broadcasting,
when n_blocks = 1, and otherwise raises an uncaught ValueError. -/
def unpack_raw10 (packed_array : List Nat) (width height : Nat) : UnpackResult :=
  let raw_bytes := packed_array.map (fun b => b % 256)
  let file_size := raw_bytes.length
  if height = 0 then .uncaught
  else
    let stride := file_size / height
    let valid_packed_width := width * 5 / 4
    if file_size ≠ height * stride then .shapeMismatch
    else
      let raw_rows := chunksAux stride height raw_bytes
      let cropped := raw_rows.map (fun r => r.take valid_packed_width)
      let flat_packed := cropped.flatten
      let n_pixels := width * height
      let n_blocks := n_pixels / 4
      if flat_packed.length ≠ n_blocks * 5 then .uncaught
      else if n_pixels % 4 = 0 then
        .ok ((chunksAux 5 n_blocks flat_packed).flatMap
          (fun b => [pixOfBlock b 0, pixOfBlock b 1, pixOfBlock b 2, pixOfBlock b 3]))
      else if n_blocks = 1 then
        .ok ((List.range n_pixels).map (fun j => pixOfBlock (flat_packed.take 5) (j % 4)))
      else .uncaught

/-- Packs four 10-bit values into one 5-byte RAW10 block (bytes 0-3 the
8 MSBs of the four pixels, byte 4 the packed 2-bit LSBs); this is the
synthetic packer the round-trip property is stated against. -/
def packBlock (v0 v1 v2 v3 : Nat) : List Nat :=
  [v0 / 4, v1 / 4, v2 / 4, v3 / 4,
   (v3 % 4) * 64 + (v2 % 4) * 16 + (v1 % 4) * 4 + v0 % 4]

/-- Packs a row of 10-bit values four at a time into 5-byte blocks. -/
def packRow : List Nat → List Nat
  | v0 :: v1 :: v2 :: v3 :: rest => packBlock v0 v1 v2 v3 ++ packRow rest
  | _ => []

/-- Builds a packed, strided buffer: for each of the height rows, the
packed bytes of that row's width pixel values followed by that row's
padding bytes. -/
def packedBuffer (width height : Nat) (vals : List Nat) (pads : Nat → List Nat) : List Nat :=
  (List.range height).flatMap
    (fun r => packRow ((vals.drop (r * width)).take width) ++ pads r)

/-- Sensor gain lower bound (GAIN_MIN = 1.0 in SimpleCameraApp.run). -/
def GAIN_MIN : ℝ := 1.0

/-- Sensor gain upper bound (GAIN_MAX = 9.6 in SimpleCameraApp.run). -/
def GAIN_MAX : ℝ := 9.6

/-- Lowest mapped ISO (ISO_MIN = 100 in SimpleCameraApp.run). -/
def ISO_MIN : ℝ := 100

/-- Highest mapped ISO (ISO_MAX = 6400 in SimpleCameraApp.run). -/
def ISO_MAX : ℝ := 6400

/-- The fixed ascending table of canonical ISO values from
SimpleCameraApp.run. -/
def STANDARD_ISOS : List ℤ :=
  [100, 110, 125, 140, 160, 180, 200, 220, 250, 280, 320, 400, 500, 640, 800,
   1000, 1250, 1600, 2000, 2200, 2350, 2500, 2800, 3000, 3200, 3600, 4000,
   4500, 5000, 5600, 6400]

/-- One comparison step of Python's min(table, key=lambda s: abs(s - x)):
the current best b is replaced by the candidate s only when s has a
strictly smaller key, so the first minimal entry in table order wins. -/
noncomputable def stepAbs (x : ℝ) (b s : ℤ) : ℤ :=
  if |(s : ℝ) - x| < |(b : ℝ) - x| then s else b

/-- Python's min(l, key=lambda s: abs(s - x)) on a nonempty list: the first
element initialises the running best, every later element replaces it only
on a strictly smaller key. -/
noncomputable def minByAbs (x : ℝ) : List ℤ → ℤ
  | [] => 0
  | h :: t => t.foldl (stepAbs x) h

/-- The power-law exponent of the gain-to-ISO mapping: initialised to 1.0
and set to log(ISO_MAX / ISO_MIN) / log(GAIN_MAX / GAIN_MIN) under the
guard GAIN_MAX > GAIN_MIN and ISO_MAX > ISO_MIN, as in SimpleCameraApp.run. -/
noncomputable def expo : ℝ :=
  if GAIN_MIN < GAIN_MAX ∧ ISO_MIN < ISO_MAX then
    Real.log (ISO_MAX / ISO_MIN) / Real.log (GAIN_MAX / GAIN_MIN)
  else 1.0

/-- iso_float = ISO_MIN * ((display_gain / GAIN_MIN) ** expo). -/
noncomputable def iso_float (display_gain : ℝ) : ℝ :=
  ISO_MIN * (display_gain / GAIN_MIN) ^ expo

/-- iso_est = min(STANDARD_ISOS, key=lambda s: abs(s - iso_float)): the
gain-to-ISO mapping of an (already clamped) gain value. -/
noncomputable def gainToISO (display_gain : ℝ) : ℤ :=
  minByAbs (iso_float display_gain) STANDARD_ISOS

/-- The preview's ISO estimate for an arbitrary gain: SimpleCameraApp.run
first clamps display_gain by max(1.0, min(9.6, display_gain)) and only then
applies the power-law mapping and the table snap. -/
noncomputable def previewISO (display_gain : ℝ) : ℤ :=
  gainToISO (max 1.0 (min 9.6 display_gain))

/-- The gamma tone curve of process_file applied to one demosaiced sample:
norm = v / 1023.0; gamma = norm ** (1 / 2.2);
(np.clip(gamma, 0, 1) * 65535).astype(np.uint16), the final cast
truncating the (in-range) float toward zero. -/
noncomputable def tonemapGamma (v : Nat) : Nat :=
  ⌊(min (max (((v : ℝ) / 1023) ^ ((1 : ℝ) / 2.2)) 0) 1) * 65535⌋₊

/-- The ENABLE_GAMMA configuration constant of process_raw_imx335.py. -/
def ENABLE_GAMMA : Bool := true

/-- The gamma path of process_file, sample by sample over the demosaiced
image. -/
noncomputable def renderGamma (img : List Nat) : List Nat :=
  img.map tonemapGamma

/-- The linear path of process_file: (bgr_image * 64).astype(np.uint16),
an unsigned 16-bit multiply, i.e. * 64 modulo 2^16 per sample. -/
def renderLinear (img : List Nat) : List Nat :=
  img.map (fun v => v * 64 % 65536)

/-- The tone-mapping stage of process_file: the gamma path when the mode
flag is set, the linear path otherwise; the two are never mixed within one
image. -/
noncomputable def processFrame (enable_gamma : Bool) (img : List Nat) : List Nat :=
  if enable_gamma then renderGamma img else renderLinear img

/-- The error kinds an item of the batch can report: the shape-mismatch
message printed by unpack_raw10 before it returns None, or the
catch-all of process_file's broad except clause. -/
inductive ErrKind where
  | shapeMismatch : ErrKind
  | exception : ErrKind
deriving DecidableEq

/-- Per-item outcome of the batch: a written rendered image, or a reported
error, both tagged with the item's identifier. -/
inductive ItemOutcome where
  | written : Nat → List Nat → ItemOutcome
  | failed : Nat → ErrKind → ItemOutcome
deriving DecidableEq

/-- process_file for one stored capture (identifier + packed buffer): the
buffer is unpacked at the hard-coded IMX335 resolution 2592 x 1944, the
mosaic is demosaiced by the external library call cv2.cvtColor (taken as a
parameter), tone-mapped with the ENABLE_GAMMA mode, and written; a None
from the unpacker ends the item after the shape-mismatch report, and any
uncaught exception is absorbed by the broad except clause and reported. -/
noncomputable def processItem (demosaic : List Nat → List Nat)
    (item : Nat × List Nat) : ItemOutcome :=
  match unpack_raw10 item.2 2592 1944 with
  | .ok mosaic => .written item.1 (processFrame ENABLE_GAMMA (demosaic mosaic))
  | .shapeMismatch => .failed item.1 .shapeMismatch
  | .uncaught => .failed item.1 .exception

/-- main's batch loop: every stored capture is processed in order, each
through process_file, regardless of the outcomes of the others. -/
noncomputable def runBatch (demosaic : List Nat → List Nat)
    (items : List (Nat × List Nat)) : List ItemOutcome :=
  items.map (processItem demosaic)

-- Sanity checks of the embedding on concrete inputs.
example : unpack_raw10 [1, 2, 3, 4, 5] 4 1 = .ok [5, 9, 12, 16] := by decide
example : unpack_raw10 [0, 0, 0] 4 1 = .uncaught := by decide
example : unpack_raw10 [0, 0, 0, 0, 0] 4 2 = .shapeMismatch := by decide
example : packRow [5, 9, 12, 16] = [1, 2, 3, 4, 5] := by decide
example : unpack_raw10 (packedBuffer 4 2 [0, 1, 2, 3, 1020, 1021, 1022, 1023]
    (fun _ => [255, 7])) 4 2 = .ok [0, 1, 2, 3, 1020, 1021, 1022, 1023] := by decide

/-! ### List infrastructure for the unpacker proofs -/

theorem chunksAux_eq_map_range (n : Nat) :
    ∀ (k : Nat) (l : List Nat),
      chunksAux n k l = (List.range k).map (fun r => (l.drop (r * n)).take n)
  | 0, _ => rfl
  | k + 1, l => by
    rw [chunksAux, List.range_succ_eq_map, List.map_cons,
      chunksAux_eq_map_range n k (l.drop n), List.map_map]
    refine congrArg₂ _ (by simp) (List.map_congr_left fun r _ => ?_)
    simp [Nat.succ_mul, List.drop_drop, Nat.add_comm]

theorem chunksAux_length (n : Nat) :
    ∀ (k : Nat) (l : List Nat), (chunksAux n k l).length = k := by
  intro k l
  rw [chunksAux_eq_map_range]
  simp

theorem chunksAux_flatMap (s : Nat) :
    ∀ (h : Nat) (row : Nat → List Nat), (∀ r < h, (row r).length = s) →
      chunksAux s h ((List.range h).flatMap row) = (List.range h).map row
  | 0, _, _ => rfl
  | h + 1, row, hrow => by
    rw [List.range_succ_eq_map, List.flatMap_cons, List.map_cons, chunksAux,
      List.take_left' (hrow 0 (Nat.succ_pos h)), List.drop_left' (hrow 0 (Nat.succ_pos h)),
      List.flatMap_map, chunksAux_flatMap s h (fun r => row (r + 1))
        (fun r hr => hrow (r + 1) (by omega)), List.map_map]
    rfl

theorem length_flatMap_const (s : Nat) :
    ∀ (h : Nat) (row : Nat → List Nat), (∀ r < h, (row r).length = s) →
      ((List.range h).flatMap row).length = h * s
  | 0, _, _ => by simp
  | h + 1, row, hrow => by
    rw [List.range_succ_eq_map, List.flatMap_cons, List.length_append,
      hrow 0 (Nat.succ_pos h), List.flatMap_map,
      length_flatMap_const s h (fun r => row (r + 1)) (fun r hr => hrow (r + 1) (by omega))]
    ring

theorem flatMap_rows_eq (w : Nat) :
    ∀ (h : Nat) (l : List Nat), l.length = h * w →
      (List.range h).flatMap (fun r => (l.drop (r * w)).take w) = l
  | 0, l, hl => by
    simp only [List.range_zero, List.flatMap_nil]
    exact (List.eq_nil_of_length_eq_zero (by omega)).symm
  | h + 1, l, hl => by
    rw [List.range_succ_eq_map, List.flatMap_cons, List.flatMap_map]
    have hfun : (fun r => (l.drop ((r + 1) * w)).take w)
        = fun r => ((l.drop w).drop (r * w)).take w := by
      funext r
      rw [List.drop_drop, Nat.succ_mul, Nat.add_comm]
    simp only [Nat.zero_mul, List.drop_zero, hfun]
    rw [flatMap_rows_eq w h (l.drop w)
      (by rw [List.length_drop, hl, Nat.succ_mul, Nat.add_sub_cancel]), List.take_append_drop]

theorem packRow_length : ∀ vs : List Nat, (packRow vs).length = 5 * (vs.length / 4)
  | [] => rfl
  | [_] => by simp [packRow]
  | [_, _] => by simp [packRow]
  | [_, _, _] => by simp [packRow]
  | _ :: _ :: _ :: _ :: rest => by
    rw [packRow, List.length_append, packRow_length rest]
    simp only [packBlock, List.length_cons, List.length_nil]
    omega

theorem packRow_append :
    ∀ a b : List Nat, 4 ∣ a.length → packRow (a ++ b) = packRow a ++ packRow b
  | [], _, _ => rfl
  | [_], _, hd => by simp only [List.length_cons, List.length_nil] at hd; omega
  | [_, _], _, hd => by simp only [List.length_cons, List.length_nil] at hd; omega
  | [_, _, _], _, hd => by simp only [List.length_cons, List.length_nil] at hd; omega
  | v0 :: v1 :: v2 :: v3 :: rest, b, hd => by
    have hrest : 4 ∣ rest.length := by
      simp only [List.length_cons] at hd
      omega
    simp only [List.cons_append, packRow, List.append_assoc, List.append_eq]
    rw [packRow_append rest b hrest]

theorem packRow_mem_lt :
    ∀ vs : List Nat, (∀ v ∈ vs, v < 1024) → ∀ b ∈ packRow vs, b < 256
  | [], _, b, hb => absurd hb (by simp [packRow])
  | [_], _, b, hb => absurd hb (by simp [packRow])
  | [_, _], _, b, hb => absurd hb (by simp [packRow])
  | [_, _, _], _, b, hb => absurd hb (by simp [packRow])
  | v0 :: v1 :: v2 :: v3 :: rest, hv, b, hb => by
    rw [packRow, List.mem_append] at hb
    rcases hb with hb | hb
    · have h0 : v0 < 1024 := hv v0 (by simp)
      have h1 : v1 < 1024 := hv v1 (by simp)
      have h2 : v2 < 1024 := hv v2 (by simp)
      have h3 : v3 < 1024 := hv v3 (by simp)
      simp only [packBlock, List.mem_cons, List.not_mem_nil, or_false] at hb
      have m0 : v0 % 4 < 4 := Nat.mod_lt _ (by omega)
      have m1 : v1 % 4 < 4 := Nat.mod_lt _ (by omega)
      have m2 : v2 % 4 < 4 := Nat.mod_lt _ (by omega)
      have m3 : v3 % 4 < 4 := Nat.mod_lt _ (by omega)
      rcases hb with rfl | rfl | rfl | rfl | rfl <;> omega
    · exact packRow_mem_lt rest (fun v hvm => hv v (by simp [hvm])) b hb

theorem packRow_flatMap :
    ∀ (h : Nat) (row : Nat → List Nat), (∀ r < h, 4 ∣ (row r).length) →
      (List.range h).flatMap (fun r => packRow (row r))
        = packRow ((List.range h).flatMap row)
  | 0, _, _ => rfl
  | h + 1, row, hrow => by
    rw [List.range_succ_eq_map, List.flatMap_cons, List.flatMap_cons, List.flatMap_map,
      List.flatMap_map, packRow_append _ _ (hrow 0 (Nat.succ_pos h)),
      packRow_flatMap h (fun r => row (r + 1)) (fun r hr => hrow (r + 1) (by omega))]

set_option maxRecDepth 4096 in
theorem lsbByte_extract :
    ∀ a < 4, ∀ b < 4, ∀ c < 4, ∀ d < 4,
      ((a * 64 + b * 16 + c * 4 + d) >>> 0) &&& 3 = d ∧
      ((a * 64 + b * 16 + c * 4 + d) >>> 2) &&& 3 = c ∧
      ((a * 64 + b * 16 + c * 4 + d) >>> 4) &&& 3 = b ∧
      ((a * 64 + b * 16 + c * 4 + d) >>> 6) &&& 3 = a := by decide

set_option maxRecDepth 8192 in
theorem msb_lsb_combine : ∀ v < 1024, ((v / 4) <<< 2) ||| (v % 4) = v := by decide

theorem pixOfBlock_packBlock (v0 v1 v2 v3 : Nat)
    (h0 : v0 < 1024) (h1 : v1 < 1024) (h2 : v2 < 1024) (h3 : v3 < 1024) :
    pixOfBlock (packBlock v0 v1 v2 v3) 0 = v0 ∧
    pixOfBlock (packBlock v0 v1 v2 v3) 1 = v1 ∧
    pixOfBlock (packBlock v0 v1 v2 v3) 2 = v2 ∧
    pixOfBlock (packBlock v0 v1 v2 v3) 3 = v3 := by
  have m0 : v0 % 4 < 4 := Nat.mod_lt _ (by omega)
  have m1 : v1 % 4 < 4 := Nat.mod_lt _ (by omega)
  have m2 : v2 % 4 < 4 := Nat.mod_lt _ (by omega)
  have m3 : v3 % 4 < 4 := Nat.mod_lt _ (by omega)
  have hx := lsbByte_extract (v3 % 4) m3 (v2 % 4) m2 (v1 % 4) m1 (v0 % 4) m0
  refine ⟨?_, ?_, ?_, ?_⟩
  · have e : pixOfBlock (packBlock v0 v1 v2 v3) 0
        = ((v0 / 4) <<< 2)
          ||| ((((v3 % 4) * 64 + (v2 % 4) * 16 + (v1 % 4) * 4 + v0 % 4) >>> 0) &&& 3) := rfl
    rw [e, hx.1]
    exact msb_lsb_combine v0 h0
  · have e : pixOfBlock (packBlock v0 v1 v2 v3) 1
        = ((v1 / 4) <<< 2)
          ||| ((((v3 % 4) * 64 + (v2 % 4) * 16 + (v1 % 4) * 4 + v0 % 4) >>> 2) &&& 3) := rfl
    rw [e, hx.2.1]
    exact msb_lsb_combine v1 h1
  · have e : pixOfBlock (packBlock v0 v1 v2 v3) 2
        = ((v2 / 4) <<< 2)
          ||| ((((v3 % 4) * 64 + (v2 % 4) * 16 + (v1 % 4) * 4 + v0 % 4) >>> 4) &&& 3) := rfl
    rw [e, hx.2.2.1]
    exact msb_lsb_combine v2 h2
  · have e : pixOfBlock (packBlock v0 v1 v2 v3) 3
        = ((v3 / 4) <<< 2)
          ||| ((((v3 % 4) * 64 + (v2 % 4) * 16 + (v1 % 4) * 4 + v0 % 4) >>> 6) &&& 3) := rfl
    rw [e, hx.2.2.2]
    exact msb_lsb_combine v3 h3

theorem unpack_packRow :
    ∀ vs : List Nat, (∀ v ∈ vs, v < 1024) → 4 ∣ vs.length →
      (chunksAux 5 (vs.length / 4) (packRow vs)).flatMap
        (fun b => [pixOfBlock b 0, pixOfBlock b 1, pixOfBlock b 2, pixOfBlock b 3]) = vs
  | [], _, _ => rfl
  | [_], _, hd => by simp only [List.length_cons, List.length_nil] at hd; omega
  | [_, _], _, hd => by simp only [List.length_cons, List.length_nil] at hd; omega
  | [_, _, _], _, hd => by simp only [List.length_cons, List.length_nil] at hd; omega
  | v0 :: v1 :: v2 :: v3 :: rest, hv, hd => by
    have h0 : v0 < 1024 := hv v0 (by simp)
    have h1 : v1 < 1024 := hv v1 (by simp)
    have h2 : v2 < 1024 := hv v2 (by simp)
    have h3 : v3 < 1024 := hv v3 (by simp)
    have hrest : 4 ∣ rest.length := by
      simp only [List.length_cons] at hd
      omega
    have hlen : (v0 :: v1 :: v2 :: v3 :: rest).length / 4 = rest.length / 4 + 1 := by
      simp only [List.length_cons]
      omega
    have hb5 : (packBlock v0 v1 v2 v3).length = 5 := by simp [packBlock]
    rw [hlen]
    simp only [packRow, chunksAux]
    rw [List.take_left' hb5, List.drop_left' hb5, List.flatMap_cons,
      unpack_packRow rest (fun v hvm => hv v (by simp [hvm])) hrest]
    have hp := pixOfBlock_packBlock v0 v1 v2 v3 h0 h1 h2 h3
    rw [hp.1, hp.2.1, hp.2.2.1, hp.2.2.2]
    rfl

theorem map_mod256_eq_self :
    ∀ l : List Nat, (∀ x ∈ l, x < 256) → l.map (fun b => b % 256) = l
  | [], _ => rfl
  | x :: t, hb => by
    rw [List.map_cons, Nat.mod_eq_of_lt (hb x (by simp)),
      map_mod256_eq_self t (fun y hy => hb y (by simp [hy]))]

/-- The central round-trip fact: unpacking a buffer built of height rows,
each the packed bytes of its width 10-bit pixel values followed by padLen
arbitrary padding bytes, recovers exactly the packed values. -/
theorem unpack_packedBuffer (width height padLen : Nat) (vals : List Nat)
    (pads : Nat → List Nat)
    (hw : width % 4 = 0) (hh : 0 < height)
    (hv : vals.length = width * height)
    (hvb : ∀ v ∈ vals, v < 1024)
    (hp : ∀ r < height, (pads r).length = padLen) :
    unpack_raw10 (packedBuffer width height vals pads) width height
      = UnpackResult.ok vals := by
  have hbytes : ∀ r : Nat, ∀ v ∈ (vals.drop (r * width)).take width, v < 1024 := by
    intro r v hvm
    exact hvb v (List.drop_subset _ _ (List.take_subset _ _ hvm))
  have hrowlen : ∀ r < height, ((vals.drop (r * width)).take width).length = width := by
    intro r hr
    rw [List.length_take, List.length_drop, hv, Nat.mul_comm width height]
    have h1 : (r + 1) * width ≤ height * width :=
      Nat.mul_le_mul_right width (Nat.succ_le_of_lt hr)
    rw [Nat.succ_mul] at h1
    omega
  have hvpw : width * 5 / 4 = 5 * (width / 4) := by omega
  have hplen : ∀ r < height,
      (packRow ((vals.drop (r * width)).take width)).length = 5 * (width / 4) := by
    intro r hr
    rw [packRow_length, hrowlen r hr]
  have hrowlen' : ∀ r < height,
      (packRow ((vals.drop (r * width)).take width)
        ++ (pads r).map (fun b => b % 256)).length = 5 * (width / 4) + padLen := by
    intro r hr
    rw [List.length_append, hplen r hr, List.length_map, hp r hr]
  have hbuf : (packedBuffer width height vals pads).map (fun b => b % 256)
      = (List.range height).flatMap
          (fun r => packRow ((vals.drop (r * width)).take width)
            ++ (pads r).map (fun b => b % 256)) := by
    rw [packedBuffer, List.map_flatMap]
    exact congrArg _ (funext fun r => by
      rw [List.map_append, map_mod256_eq_self _ (packRow_mem_lt _ (hbytes r))])
  have hdvd4 : 4 ∣ width := Nat.dvd_of_mod_eq_zero hw
  have h4wh : 4 ∣ width * height := hdvd4.mul_right height
  have hlenbuf : ((packedBuffer width height vals pads).map (fun b => b % 256)).length
      = height * (5 * (width / 4) + padLen) := by
    rw [hbuf]
    exact length_flatMap_const _ height _ hrowlen'
  have hchunks : chunksAux (5 * (width / 4) + padLen) height
      ((packedBuffer width height vals pads).map (fun b => b % 256))
      = (List.range height).map
          (fun r => packRow ((vals.drop (r * width)).take width)
            ++ (pads r).map (fun b => b % 256)) := by
    rw [hbuf]
    exact chunksAux_flatMap _ height _ hrowlen'
  have hcrop : (List.range height).map
      ((fun l : List Nat => l.take (5 * (width / 4))) ∘
        (fun r => packRow ((vals.drop (r * width)).take width)
          ++ (pads r).map (fun b => b % 256)))
      = (List.range height).map
          (fun r => packRow ((vals.drop (r * width)).take width)) := by
    refine List.map_congr_left fun r hr => ?_
    have hr' : r < height := List.mem_range.1 hr
    exact List.take_left' (hplen r hr')
  have hflatten : ((List.range height).map
        (fun r => packRow ((vals.drop (r * width)).take width))).flatten
      = packRow vals := by
    have hdef : (List.range height).flatMap
        (fun r => packRow ((vals.drop (r * width)).take width))
        = ((List.range height).map
            (fun r => packRow ((vals.drop (r * width)).take width))).flatten := rfl
    rw [← hdef, packRow_flatMap height _ (fun r hr => by rw [hrowlen r hr]; exact hdvd4),
      flatMap_rows_eq width height vals (by rw [hv, Nat.mul_comm])]
  have hpix := unpack_packRow vals hvb (by rw [hv]; exact h4wh)
  rw [hv] at hpix
  simp only [unpack_raw10]
  rw [if_neg hh.ne', hlenbuf, Nat.mul_div_cancel_left _ hh,
    if_neg (fun hne => hne rfl), hvpw, hchunks, List.map_map, hcrop, hflatten,
    packRow_length, hv, if_neg (by omega),
    if_pos (Nat.mod_eq_zero_of_dvd h4wh), hpix]

/-! ### Invariants of a successful unpack (C9 support) -/

theorem chunksAux_subset (n k : Nat) (l : List Nat) :
    ∀ bb ∈ chunksAux n k l, ∀ y ∈ bb, y ∈ l := by
  intro bb hbb
  rw [chunksAux_eq_map_range] at hbb
  obtain ⟨r, _, rfl⟩ := List.mem_map.1 hbb
  intro y hy
  exact List.drop_subset _ _ (List.take_subset _ _ hy)

theorem pixOfBlock_lt (b : List Nat) (i : Nat) (hb : ∀ y ∈ b, y < 256) :
    pixOfBlock b i < 1024 := by
  have hm : b.getD i 0 < 256 := by
    rcases Nat.lt_or_ge i b.length with hi | hi
    · rw [List.getD_eq_getElem b 0 hi]
      exact hb _ (List.getElem_mem hi)
    · rw [List.getD_eq_default b 0 hi]
      omega
  have h1 : b.getD i 0 <<< 2 < 2 ^ 10 := by
    rw [Nat.shiftLeft_eq]
    have e2 : (2 : Nat) ^ 2 = 4 := by norm_num
    have e10 : (2 : Nat) ^ 10 = 1024 := by norm_num
    rw [e2, e10]
    omega
  have h2 : (b.getD 4 0 >>> (2 * i)) &&& 3 < 2 ^ 10 :=
    lt_of_le_of_lt Nat.and_le_right (by norm_num)
  exact lt_of_lt_of_le (Nat.or_lt_two_pow h1 h2) (by norm_num)

theorem mem_map_mod256_lt (l : List Nat) : ∀ x ∈ l.map (fun b => b % 256), x < 256 := by
  intro x hx
  obtain ⟨y, _, rfl⟩ := List.mem_map.1 hx
  exact Nat.mod_lt y (by norm_num)

theorem cropped_flatten_mem (s k w : Nat) (l : List Nat) :
    ∀ x ∈ ((chunksAux s k l).map (fun r => r.take w)).flatten, x ∈ l := by
  intro x hx
  obtain ⟨row, hrow, hxr⟩ := List.mem_flatten.1 hx
  obtain ⟨chunk, hchunk, rfl⟩ := List.mem_map.1 hrow
  exact chunksAux_subset s k l chunk hchunk x (List.take_subset _ _ hxr)

theorem unpack_ok_spec (b : List Nat) (w h : Nat) (m : List Nat)
    (heq : unpack_raw10 b w h = UnpackResult.ok m) :
    m.length = w * h ∧ ∀ v ∈ m, v ≤ 1023 := by
  simp only [unpack_raw10] at heq
  by_cases hh : h = 0
  · rw [if_pos hh] at heq
    exact absurd heq (by simp)
  rw [if_neg hh] at heq
  set B := b.map (fun x => x % 256) with hB
  by_cases hc1 : B.length ≠ h * (B.length / h)
  · rw [if_pos hc1] at heq
    exact absurd heq (by simp)
  rw [if_neg hc1] at heq
  set flat := ((chunksAux (B.length / h) h B).map
    (fun r => r.take (w * 5 / 4))).flatten with hflat
  have hfmem : ∀ x ∈ flat, x < 256 := by
    intro x hx
    exact mem_map_mod256_lt b x (cropped_flatten_mem _ _ _ _ x hx)
  by_cases hc2 : flat.length ≠ w * h / 4 * 5
  · rw [if_pos hc2] at heq
    exact absurd heq (by simp)
  rw [if_neg hc2] at heq
  by_cases hc3 : w * h % 4 = 0
  · rw [if_pos hc3] at heq
    have hm := UnpackResult.ok.inj heq
    constructor
    · rw [← hm]
      have hlen4 : ∀ bs : List (List Nat),
          (bs.flatMap (fun bb => [pixOfBlock bb 0, pixOfBlock bb 1,
            pixOfBlock bb 2, pixOfBlock bb 3])).length = 4 * bs.length := by
        intro bs
        induction bs with
        | nil => rfl
        | cons bb t ih =>
          rw [List.flatMap_cons, List.length_append, ih]
          simp only [List.length_cons, List.length_nil]
          omega
      rw [hlen4, chunksAux_length]
      omega
    · intro v hv
      rw [← hm] at hv
      obtain ⟨bb, hbb, hvm⟩ := List.mem_flatMap.1 hv
      have hblt : ∀ y ∈ bb, y < 256 := fun y hy =>
        hfmem y (chunksAux_subset _ _ _ bb hbb y hy)
      simp only [List.mem_cons, List.not_mem_nil, or_false] at hvm
      rcases hvm with rfl | rfl | rfl | rfl <;>
        exact Nat.lt_succ_iff.1 (pixOfBlock_lt bb _ hblt)
  rw [if_neg hc3] at heq
  by_cases hc4 : w * h / 4 = 1
  · rw [if_pos hc4] at heq
    have hm := UnpackResult.ok.inj heq
    constructor
    · rw [← hm, List.length_map, List.length_range]
    · intro v hv
      rw [← hm] at hv
      obtain ⟨j, _, rfl⟩ := List.mem_map.1 hv
      have hblt : ∀ y ∈ flat.take 5, y < 256 := fun y hy =>
        hfmem y (List.take_subset _ _ hy)
      exact Nat.lt_succ_iff.1 (pixOfBlock_lt _ _ hblt)
  · rw [if_neg hc4] at heq
    exact absurd heq (by simp)

/-! ### ShapeMismatch characterisation (C2 support) -/

theorem unpack_shapeMismatch_iff (b : List Nat) (w h : Nat) :
    unpack_raw10 b w h = UnpackResult.shapeMismatch ↔ h ≠ 0 ∧ b.length % h ≠ 0 := by
  have hlen : (b.map (fun x => x % 256)).length = b.length := List.length_map _ _
  simp only [unpack_raw10, hlen]
  rcases Nat.eq_zero_or_pos h with rfl | hh
  · simp
  rw [if_neg hh.ne']
  have hdm := Nat.div_add_mod b.length h
  by_cases hmod : b.length % h = 0
  · rw [if_neg (by omega)]
    simp only [hmod, ne_eq, not_true_eq_false, and_false, iff_false]
    split
    · simp
    · split
      · simp
      · split
        · simp
        · simp
  · rw [if_pos (by omega)]
    simp [hh.ne', hmod]

/-! ### Padding independence (C3 support) -/

theorem unpack_padding_irrel (b1 b2 : List Nat) (w h : Nat)
    (hlen : b1.length = b2.length)
    (hagree : ∀ r < h, (b1.drop (r * (b1.length / h))).take (w * 5 / 4)
        = (b2.drop (r * (b1.length / h))).take (w * 5 / 4)) :
    unpack_raw10 b1 w h = unpack_raw10 b2 w h := by
  have hl1 : (b1.map (fun x => x % 256)).length = b1.length := List.length_map _ _
  have hl2 : (b2.map (fun x => x % 256)).length = b1.length := by
    rw [List.length_map, hlen]
  simp only [unpack_raw10, hl1, hl2]
  have hkey : (chunksAux (b1.length / h) h (b1.map (fun x => x % 256))).map
        (fun r => r.take (w * 5 / 4))
      = (chunksAux (b1.length / h) h (b2.map (fun x => x % 256))).map
        (fun r => r.take (w * 5 / 4)) := by
    rw [chunksAux_eq_map_range, chunksAux_eq_map_range, List.map_map, List.map_map]
    refine List.map_congr_left fun r hr => ?_
    have hr' : r < h := List.mem_range.1 hr
    simp only [Function.comp_apply]
    have hstep : (b1.drop (r * (b1.length / h))).take
          (min (w * 5 / 4) (b1.length / h))
        = (b2.drop (r * (b1.length / h))).take
          (min (w * 5 / 4) (b1.length / h)) := by
      calc (b1.drop (r * (b1.length / h))).take (min (w * 5 / 4) (b1.length / h))
          = ((b1.drop (r * (b1.length / h))).take (w * 5 / 4)).take (b1.length / h) := by
            rw [List.take_take, Nat.min_comm]
        _ = ((b2.drop (r * (b1.length / h))).take (w * 5 / 4)).take (b1.length / h) := by
            rw [hagree r hr']
        _ = (b2.drop (r * (b1.length / h))).take (min (w * 5 / 4) (b1.length / h)) := by
            rw [List.take_take, Nat.min_comm]
    rw [List.take_take, List.take_take, ← List.map_drop, ← List.map_drop,
      ← List.map_take, ← List.map_take, hstep]
  rw [hkey]

/-! ### The first-minimal fold of the gain-to-ISO mapper -/

theorem foldl_stepAbs_mem (x : ℝ) :
    ∀ (l : List ℤ) (b : ℤ), l.foldl (stepAbs x) b = b ∨ l.foldl (stepAbs x) b ∈ l
  | [], _ => Or.inl rfl
  | s :: t, b => by
    rw [List.foldl_cons]
    rcases foldl_stepAbs_mem x t (stepAbs x b s) with hc | hc
    · rw [hc]
      unfold stepAbs
      split
      · exact Or.inr (by simp)
      · exact Or.inl rfl
    · exact Or.inr (by simp [hc])

theorem foldl_stepAbs_le (x : ℝ) :
    ∀ (l : List ℤ) (b : ℤ),
      |((l.foldl (stepAbs x) b : ℤ) : ℝ) - x| ≤ |(b : ℝ) - x| ∧
      ∀ s ∈ l, |((l.foldl (stepAbs x) b : ℤ) : ℝ) - x| ≤ |(s : ℝ) - x|
  | [], b => ⟨le_refl _, by simp⟩
  | s :: t, b => by
    rw [List.foldl_cons]
    obtain ⟨h1, h2⟩ := foldl_stepAbs_le x t (stepAbs x b s)
    have hb : |(stepAbs x b s : ℝ) - x| ≤ |(b : ℝ) - x| := by
      unfold stepAbs
      split
      · exact le_of_lt (by assumption)
      · exact le_refl _
    have hs : |(stepAbs x b s : ℝ) - x| ≤ |(s : ℝ) - x| := by
      unfold stepAbs
      split
      · exact le_refl _
      · exact le_of_not_lt (by assumption)
    refine ⟨le_trans h1 hb, ?_⟩
    intro u hu
    rcases List.mem_cons.1 hu with rfl | hu
    · exact le_trans h1 hs
    · exact h2 u hu

theorem chain_lt_of_lt (b c : ℤ) (t : List ℤ) (hbc : b < c)
    (h : List.Chain (· < ·) c t) : List.Chain (· < ·) b t := by
  cases t with
  | nil => exact List.Chain.nil
  | cons d t =>
    obtain ⟨hcd, hdt⟩ := List.chain_cons.1 h
    exact List.chain_cons.2 ⟨lt_trans hbc hcd, hdt⟩

theorem foldl_stepAbs_first (x : ℝ) :
    ∀ (l : List ℤ) (b : ℤ), List.Chain (· < ·) b l →
      ∀ s : ℤ, s = b ∨ s ∈ l →
        |(s : ℝ) - x| ≤ |((l.foldl (stepAbs x) b : ℤ) : ℝ) - x| →
        l.foldl (stepAbs x) b ≤ s
  | [], b, _, s, hs, _ => by
    rcases hs with rfl | hs
    · exact le_refl _
    · exact absurd hs (List.not_mem_nil s)
  | c :: t, b, hchain, s, hs, hle => by
    rw [List.foldl_cons] at hle ⊢
    obtain ⟨hbc, hct⟩ := List.chain_cons.1 hchain
    by_cases hswitch : |(c : ℝ) - x| < |(b : ℝ) - x|
    · have hstep : stepAbs x b c = c := by
        unfold stepAbs
        rw [if_pos hswitch]
      rw [hstep] at hle ⊢
      rcases hs with rfl | hs
      · -- s = b: the best is already strictly closer than b, contradiction
        have hmin := (foldl_stepAbs_le x t c).1
        exact absurd hle (not_le.2 (lt_of_le_of_lt hmin hswitch))
      · rcases List.mem_cons.1 hs with rfl | hs
        · exact foldl_stepAbs_first x t _ hct s (Or.inl rfl) hle
        · exact foldl_stepAbs_first x t _ hct s (Or.inr hs) hle
    · have hstep : stepAbs x b c = b := by
        unfold stepAbs
        rw [if_neg hswitch]
      rw [hstep] at hle ⊢
      have hchain' : List.Chain (· < ·) b t := chain_lt_of_lt b c t hbc hct
      rcases hs with rfl | hs
      · exact foldl_stepAbs_first x t _ hchain' s (Or.inl rfl) hle
      · rcases List.mem_cons.1 hs with rfl | hs
        · -- s = c, the kept best b comes before c
          have hnot : |(b : ℝ) - x| ≤ |(s : ℝ) - x| := le_of_not_lt hswitch
          exact le_trans
            (foldl_stepAbs_first x t b hchain' b (Or.inl rfl) (le_trans hnot hle))
            (le_of_lt hbc)
        · exact foldl_stepAbs_first x t b hchain' s (Or.inr hs) hle

theorem minByAbs_mem (x : ℝ) (hd : ℤ) (tl : List ℤ) :
    minByAbs x (hd :: tl) ∈ hd :: tl := by
  rw [minByAbs]
  rcases foldl_stepAbs_mem x tl hd with hc | hc
  · rw [hc]
    exact List.mem_cons_self hd tl
  · exact List.mem_cons_of_mem hd hc

theorem minByAbs_le_abs (x : ℝ) (hd : ℤ) (tl : List ℤ) :
    ∀ s ∈ hd :: tl, |(minByAbs x (hd :: tl) : ℝ) - x| ≤ |(s : ℝ) - x| := by
  intro s hs
  rw [minByAbs]
  obtain ⟨h1, h2⟩ := foldl_stepAbs_le x tl hd
  rcases List.mem_cons.1 hs with rfl | hs
  · exact h1
  · exact h2 s hs

theorem minByAbs_first (x : ℝ) (hd : ℤ) (tl : List ℤ)
    (hchain : List.Chain (· < ·) hd tl) :
    ∀ s ∈ hd :: tl, |(s : ℝ) - x| ≤ |(minByAbs x (hd :: tl) : ℝ) - x| →
      minByAbs x (hd :: tl) ≤ s := by
  intro s hs hle
  rw [minByAbs] at hle ⊢
  rcases List.mem_cons.1 hs with rfl | hs
  · exact foldl_stepAbs_first x tl _ hchain s (Or.inl rfl) hle
  · exact foldl_stepAbs_first x tl hd hchain s (Or.inr hs) hle

theorem minByAbs_mono (x y : ℝ) (hd : ℤ) (tl : List ℤ)
    (hchain : List.Chain (· < ·) hd tl) (hxy : x ≤ y) :
    minByAbs x (hd :: tl) ≤ minByAbs y (hd :: tl) := by
  by_contra hab
  push_neg at hab
  set a := minByAbs x (hd :: tl) with ha
  set b := minByAbs y (hd :: tl) with hb
  have hbmem : b ∈ hd :: tl := minByAbs_mem y hd tl
  have hamem : a ∈ hd :: tl := minByAbs_mem x hd tl
  have h1 : |(a : ℝ) - x| < |(b : ℝ) - x| := by
    by_contra h1
    push_neg at h1
    exact absurd (minByAbs_first x hd tl hchain b hbmem h1) (not_le.2 hab)
  have h2 : |(b : ℝ) - y| ≤ |(a : ℝ) - y| := minByAbs_le_abs y hd tl a hamem
  have hba : (b : ℝ) < (a : ℝ) := by exact_mod_cast hab
  have k1 : ((a : ℝ) - x) * ((a : ℝ) - x) < ((b : ℝ) - x) * ((b : ℝ) - x) := by
    have := mul_self_lt_mul_self (abs_nonneg _) h1
    rwa [abs_mul_abs_self, abs_mul_abs_self] at this
  have k2 : ((b : ℝ) - y) * ((b : ℝ) - y) ≤ ((a : ℝ) - y) * ((a : ℝ) - y) := by
    have := mul_self_le_mul_self (abs_nonneg _) h2
    rwa [abs_mul_abs_self, abs_mul_abs_self] at this
  nlinarith [mul_nonneg (sub_nonneg.2 hxy) (sub_nonneg.2 hba.le)]

theorem minByAbs_eq_of_mem (x : ℝ) (hd : ℤ) (tl : List ℤ) (s : ℤ)
    (hs : s ∈ hd :: tl) (hx : (s : ℝ) = x) : minByAbs x (hd :: tl) = s := by
  have h1 := minByAbs_le_abs x hd tl s hs
  rw [hx, sub_self, abs_zero] at h1
  have h2 : |(minByAbs x (hd :: tl) : ℝ) - x| = 0 := le_antisymm h1 (abs_nonneg _)
  rw [abs_eq_zero, sub_eq_zero] at h2
  have h3 : ((minByAbs x (hd :: tl) : ℤ) : ℝ) = (s : ℝ) := by rw [h2, ← hx]
  exact_mod_cast h3

/-! ### Evaluation of the gain-to-ISO mapping -/

theorem STANDARD_ISOS_chain :
    List.Chain (· < ·) (100 : ℤ)
      [110, 125, 140, 160, 180, 200, 220, 250, 280, 320, 400, 500, 640, 800,
       1000, 1250, 1600, 2000, 2200, 2350, 2500, 2800, 3000, 3200, 3600, 4000,
       4500, 5000, 5600, 6400] := by
  repeat (first | exact List.Chain.nil | refine List.Chain.cons (by norm_num) ?_)

theorem expo_eq : expo = Real.log 64 / Real.log 9.6 := by
  have hcond : GAIN_MIN < GAIN_MAX ∧ ISO_MIN < ISO_MAX := by
    constructor <;> norm_num [GAIN_MIN, GAIN_MAX, ISO_MIN, ISO_MAX]
  unfold expo
  rw [if_pos hcond]
  norm_num [ISO_MAX, ISO_MIN, GAIN_MAX, GAIN_MIN]

theorem expo_nonneg : 0 ≤ expo := by
  rw [expo_eq]
  exact div_nonneg (Real.log_nonneg (by norm_num)) (Real.log_pos (by norm_num)).le

theorem iso_float_gainmin : iso_float GAIN_MIN = 100 := by
  have hG : GAIN_MIN = 1 := by norm_num [GAIN_MIN]
  unfold iso_float
  rw [hG, div_one, Real.one_rpow, mul_one]
  norm_num [ISO_MIN]

theorem iso_float_gainmax : iso_float GAIN_MAX = 6400 := by
  have hG : GAIN_MIN = 1 := by norm_num [GAIN_MIN]
  have hM : GAIN_MAX = (9.6 : ℝ) := rfl
  unfold iso_float
  rw [hG, div_one, hM, expo_eq, Real.rpow_def_of_pos (by norm_num),
    mul_comm (Real.log 9.6), div_mul_cancel₀ _ (ne_of_gt (Real.log_pos (by norm_num))),
    Real.exp_log (by norm_num)]
  norm_num [ISO_MIN]

theorem iso_float_mono (g1 g2 : ℝ) (h1 : 1 ≤ g1) (h12 : g1 ≤ g2) :
    iso_float g1 ≤ iso_float g2 := by
  have hG : GAIN_MIN = 1 := by norm_num [GAIN_MIN]
  unfold iso_float
  rw [hG, div_one, div_one]
  exact mul_le_mul_of_nonneg_left
    (Real.rpow_le_rpow (by linarith) h12 expo_nonneg) (by norm_num [ISO_MIN])

theorem gainToISO_gainmin : gainToISO GAIN_MIN = 100 := by
  unfold gainToISO STANDARD_ISOS
  exact minByAbs_eq_of_mem _ _ _ 100 (by decide)
    (by rw [iso_float_gainmin]; norm_num)

theorem gainToISO_gainmax : gainToISO GAIN_MAX = 6400 := by
  unfold gainToISO STANDARD_ISOS
  exact minByAbs_eq_of_mem _ _ _ 6400 (by decide)
    (by rw [iso_float_gainmax]; norm_num)

theorem gainToISO_mono (g1 g2 : ℝ) (h1 : GAIN_MIN ≤ g1) (h12 : g1 ≤ g2) :
    gainToISO g1 ≤ gainToISO g2 := by
  have hG : GAIN_MIN = 1 := by norm_num [GAIN_MIN]
  unfold gainToISO STANDARD_ISOS
  exact minByAbs_mono _ _ _ _ STANDARD_ISOS_chain
    (iso_float_mono g1 g2 (by rw [hG] at h1; exact h1) h12)

/-! ### Evaluation of the tone curve -/

theorem tonemapGamma_zero : tonemapGamma 0 = 0 := by
  unfold tonemapGamma
  rw [Nat.cast_zero, zero_div, Real.zero_rpow (by norm_num)]
  norm_num

theorem tonemapGamma_full : tonemapGamma 1023 = 65535 := by
  unfold tonemapGamma
  have h1 : ((1023 : ℕ) : ℝ) / 1023 = 1 := by norm_num
  rw [h1, Real.one_rpow]
  norm_num

theorem tonemapGamma_mono (v1 v2 : Nat) (h : v1 ≤ v2) :
    tonemapGamma v1 ≤ tonemapGamma v2 := by
  unfold tonemapGamma
  have hd : ((v1 : ℝ)) / 1023 ≤ (v2 : ℝ) / 1023 := by
    have : ((v1 : ℝ)) ≤ (v2 : ℝ) := Nat.cast_le.2 h
    linarith
  have hr : ((v1 : ℝ) / 1023) ^ ((1 : ℝ) / 2.2) ≤ ((v2 : ℝ) / 1023) ^ ((1 : ℝ) / 2.2) :=
    Real.rpow_le_rpow (by positivity) hd (by norm_num)
  exact Nat.floor_mono (mul_le_mul_of_nonneg_right
    (min_le_min (max_le_max hr (le_refl 0)) (le_refl 1)) (by norm_num))

/-! ### The all-zero reference buffer of the batch scenario -/

theorem packRow_replicate :
    ∀ n, packRow (List.replicate n 0) = List.replicate (5 * (n / 4)) 0
  | 0 => rfl
  | 1 => by decide
  | 2 => by decide
  | 3 => by decide
  | n + 4 => by
    rw [show List.replicate (n + 4) (0 : ℕ) = 0 :: 0 :: 0 :: 0 :: List.replicate n 0
        from rfl]
    rw [packRow, packRow_replicate n,
      show packBlock 0 0 0 0 = List.replicate 5 0 from rfl, ← List.replicate_add]
    congr 1
    omega

theorem flatMap_const_replicate :
    ∀ h s : Nat, (List.range h).flatMap (fun _ => List.replicate s (0 : ℕ))
      = List.replicate (h * s) 0
  | 0, s => by simp
  | h + 1, s => by
    rw [List.range_succ_eq_map, List.flatMap_cons, List.flatMap_map]
    show List.replicate s 0 ++ (List.range h).flatMap (fun _ => List.replicate s (0 : ℕ))
      = List.replicate ((h + 1) * s) 0
    rw [flatMap_const_replicate h s, ← List.replicate_add]
    congr 1
    ring

theorem packedBuffer_zeros :
    packedBuffer 2592 1944 (List.replicate (2592 * 1944) 0) (fun _ => [])
      = List.replicate (1944 * 3240) 0 := by
  unfold packedBuffer
  have hrow : ∀ r ∈ List.range 1944,
      packRow (((List.replicate (2592 * 1944) (0 : ℕ)).drop (r * 2592)).take 2592) ++ []
        = List.replicate 3240 0 := by
    intro r hr
    have hr' : r < 1944 := List.mem_range.1 hr
    rw [List.append_nil, List.drop_replicate, List.take_replicate]
    have hmin : min 2592 (2592 * 1944 - r * 2592) = 2592 := by omega
    rw [hmin, packRow_replicate]
  have h1 : (List.range 1944).flatMap
        (fun r => packRow (((List.replicate (2592 * 1944) (0 : ℕ)).drop (r * 2592)).take 2592)
          ++ [])
      = (List.range 1944).flatMap (fun _ => List.replicate 3240 0) := by
    show ((List.range 1944).map _).flatten = ((List.range 1944).map _).flatten
    rw [List.map_congr_left hrow]
  rw [h1, flatMap_const_replicate]

theorem unpack_zeros :
    unpack_raw10 (List.replicate (1944 * 3240) 0) 2592 1944
      = UnpackResult.ok (List.replicate (2592 * 1944) 0) := by
  rw [← packedBuffer_zeros]
  exact unpack_packedBuffer 2592 1944 0 _ _ (by norm_num) (by norm_num)
    (by rw [List.length_replicate])
    (fun v hv => by
      rw [List.eq_of_mem_replicate hv]
      norm_num)
    (fun r _ => rfl)

theorem minByAbs_at_100 : minByAbs 100 STANDARD_ISOS = 100 := by
  unfold STANDARD_ISOS
  exact minByAbs_eq_of_mem _ _ _ 100 (by decide) (by norm_num)

/-! ### The claims -/

/-- C1: for every width divisible by 4, every positive height, and every
buffer formed by packing width * height 10-bit values four-to-five-bytes
per block (MSB bytes first, then the packed 2-bit LSB byte) with arbitrary
fixed-length padding at the end of each row, unpack_raw10 returns exactly
those width * height values in row-major order: packing followed by
unpacking is the identity. -/
theorem C1_roundtrip (width height padLen : Nat) (vals : List Nat)
    (pads : Nat → List Nat)
    (hw : width % 4 = 0) (hh : 0 < height)
    (hv : vals.length = width * height)
    (hvb : ∀ v ∈ vals, v < 1024)
    (hp : ∀ r < height, (pads r).length = padLen) :
    unpack_raw10 (packedBuffer width height vals pads) width height
      = UnpackResult.ok vals :=
  unpack_packedBuffer width height padLen vals pads hw hh hv hvb hp

/-- Concrete instantiation of C1_roundtrip: width 4, height 1, the values
[1, 2, 3, 1023] and one arbitrary padding byte per row. -/
theorem C1_roundtrip_witness :
    4 % 4 = 0 ∧ 0 < 1 ∧
    ([1, 2, 3, 1023] : List Nat).length = 4 * 1 ∧
    (∀ v ∈ ([1, 2, 3, 1023] : List Nat), v < 1024) ∧
    (∀ r < 1, ((fun _ : Nat => [255]) r).length = 1) ∧
    unpack_raw10 (packedBuffer 4 1 [1, 2, 3, 1023] (fun _ => [255])) 4 1
      = UnpackResult.ok [1, 2, 3, 1023] :=
  ⟨by decide, by decide, by decide, by decide, by decide,
    C1_roundtrip 4 1 1 [1, 2, 3, 1023] (fun _ => [255]) (by decide) (by decide)
      (by decide) (by decide) (by decide)⟩

/-- C2 counterexample: at width 4, height 1 and a 3-byte buffer, the valid
packed width (5 bytes) exceeds the stride (3 bytes), so the claim demands
a ShapeMismatch failure; unpack_raw10 instead reaches the uncaught
ValueError of the second reshape, outside the try block. -/
theorem C2_counterexample :
    unpack_raw10 [0, 0, 0] 4 1 = UnpackResult.uncaught ∧
    unpack_raw10 [0, 0, 0] 4 1 ≠ UnpackResult.shapeMismatch := by decide

/-- C2 (amended): unpack_raw10 reports the ShapeMismatch error exactly
when the height is nonzero and the buffer size is not evenly divisible by
the height; the claim's other two failure conditions (cropping past the
buffer bounds, width * height not divisible by 4) never produce a
ShapeMismatch error. -/
theorem C2_shapeMismatch_characterisation (b : List Nat) (w h : Nat) :
    unpack_raw10 b w h = UnpackResult.shapeMismatch ↔ h ≠ 0 ∧ b.length % h ≠ 0 :=
  unpack_shapeMismatch_iff b w h

/-- C3: two equally sized buffers whose rows agree on the first
floor(width * 1.25) bytes and differ only in the remaining padding bytes
of each stride-length row unpack identically: the padding never influences
any reconstructed pixel. -/
theorem C3_padding_independence (b1 b2 : List Nat) (width height : Nat)
    (hlen : b1.length = b2.length)
    (hagree : ∀ r < height,
      (b1.drop (r * (b1.length / height))).take (width * 5 / 4)
        = (b2.drop (r * (b1.length / height))).take (width * 5 / 4)) :
    unpack_raw10 b1 width height = unpack_raw10 b2 width height :=
  unpack_padding_irrel b1 b2 width height hlen hagree

/-- Concrete instantiation of C3_padding_independence: two 6-byte buffers
for a 4x1 frame that differ only in the final padding byte. -/
theorem C3_padding_independence_witness :
    ([1, 2, 3, 4, 5, 9] : List Nat).length = ([1, 2, 3, 4, 5, 7] : List Nat).length ∧
    (∀ r < 1,
      (([1, 2, 3, 4, 5, 9] : List Nat).drop
          (r * (([1, 2, 3, 4, 5, 9] : List Nat).length / 1))).take (4 * 5 / 4)
        = (([1, 2, 3, 4, 5, 7] : List Nat).drop
          (r * (([1, 2, 3, 4, 5, 9] : List Nat).length / 1))).take (4 * 5 / 4)) ∧
    unpack_raw10 [1, 2, 3, 4, 5, 9] 4 1 = unpack_raw10 [1, 2, 3, 4, 5, 7] 4 1 :=
  ⟨by decide, by decide,
    C3_padding_independence [1, 2, 3, 4, 5, 9] [1, 2, 3, 4, 5, 7] 4 1
      (by decide) (by decide)⟩

/-- C4: the gain-to-ISO mapping handles the endpoints exactly: gain
GAIN_MIN (1.0) maps to ISO 100 and gain GAIN_MAX (9.6) maps to 6400, the
standard-ISO table entry nearest ISO_MAX. -/
theorem C4_endpoints : gainToISO GAIN_MIN = 100 ∧ gainToISO GAIN_MAX = 6400 :=
  ⟨gainToISO_gainmin, gainToISO_gainmax⟩

/-- C5: the gain-to-ISO mapping is monotonically non-decreasing on
[GAIN_MIN, GAIN_MAX], and whenever a table entry is equidistant from the
analytically mapped value with the selected entry, the selected entry is
the first minimal one in ascending table order (the least such entry). -/
theorem C5_monotone_and_ties :
    (∀ g1 g2 : ℝ, GAIN_MIN ≤ g1 → g1 ≤ g2 → g2 ≤ GAIN_MAX →
      gainToISO g1 ≤ gainToISO g2) ∧
    (∀ (x : ℝ) (s : ℤ), s ∈ STANDARD_ISOS →
      |(s : ℝ) - x| = |((minByAbs x STANDARD_ISOS : ℤ) : ℝ) - x| →
      minByAbs x STANDARD_ISOS ≤ s) := by
  constructor
  · intro g1 g2 h1 h12 _
    exact gainToISO_mono g1 g2 h1 h12
  · intro x s hs hle
    unfold STANDARD_ISOS at hs hle ⊢
    exact minByAbs_first x 100 _ STANDARD_ISOS_chain s hs (le_of_eq hle)

/-- Concrete instantiation of C5_monotone_and_ties at the endpoint gains
1 and 9.6 and at the table entry 100 with mapped value 100. -/
theorem C5_monotone_and_ties_witness :
    (GAIN_MIN ≤ (1 : ℝ) ∧ (1 : ℝ) ≤ 9.6 ∧ (9.6 : ℝ) ≤ GAIN_MAX ∧
      gainToISO 1 ≤ gainToISO 9.6) ∧
    ((100 : ℤ) ∈ STANDARD_ISOS ∧
      |((100 : ℤ) : ℝ) - 100| = |((minByAbs 100 STANDARD_ISOS : ℤ) : ℝ) - 100| ∧
      minByAbs 100 STANDARD_ISOS ≤ 100) := by
  have h1 : GAIN_MIN ≤ (1 : ℝ) := by norm_num [GAIN_MIN]
  have h2 : (1 : ℝ) ≤ 9.6 := by norm_num
  have h3 : (9.6 : ℝ) ≤ GAIN_MAX := by norm_num [GAIN_MAX]
  have m1 : (100 : ℤ) ∈ STANDARD_ISOS := by unfold STANDARD_ISOS; decide
  have m2 : |((100 : ℤ) : ℝ) - 100|
      = |((minByAbs 100 STANDARD_ISOS : ℤ) : ℝ) - 100| := by
    rw [minByAbs_at_100]
  exact ⟨⟨h1, h2, h3, C5_monotone_and_ties.1 1 9.6 h1 h2 h3⟩,
    ⟨m1, m2, C5_monotone_and_ties.2 100 100 m1 m2⟩⟩

/-- C6: on the gamma path, an all-zero mosaic renders to an all-zero
image, an all-1023 mosaic renders to an all-65535 image exactly, and the
per-sample mapping is monotonically non-decreasing. -/
theorem C6_gamma_path :
    (∀ n, renderGamma (List.replicate n 0) = List.replicate n 0) ∧
    (∀ n, renderGamma (List.replicate n 1023) = List.replicate n 65535) ∧
    (∀ m1 m2 : List Nat, List.Forall₂ (· ≤ ·) m1 m2 →
      List.Forall₂ (· ≤ ·) (renderGamma m1) (renderGamma m2)) := by
  refine ⟨?_, ?_, ?_⟩
  · intro n
    unfold renderGamma
    rw [List.map_replicate, tonemapGamma_zero]
  · intro n
    unfold renderGamma
    rw [List.map_replicate, tonemapGamma_full]
  · intro m1 m2 h
    unfold renderGamma
    induction h with
    | nil => exact List.Forall₂.nil
    | cons hab htail ih => exact List.Forall₂.cons (tonemapGamma_mono _ _ hab) ih

/-- Concrete instantiation of C6_gamma_path's monotonicity on the
pointwise-ordered pair of two-sample mosaics [0, 1000] and [500, 1023]. -/
theorem C6_gamma_path_witness :
    List.Forall₂ (· ≤ ·) ([0, 1000] : List Nat) [500, 1023] ∧
    List.Forall₂ (· ≤ ·) (renderGamma [0, 1000]) (renderGamma [500, 1023]) := by
  have h : List.Forall₂ (· ≤ ·) ([0, 1000] : List Nat) [500, 1023] :=
    List.Forall₂.cons (by norm_num) (List.Forall₂.cons (by norm_num) List.Forall₂.nil)
  exact ⟨h, C6_gamma_path.2.2 [0, 1000] [500, 1023] h⟩

/-- C7: on the linear path every output sample equals the corresponding
input sample times 64 reduced modulo 2^16 (unsigned 16-bit arithmetic),
lengths are preserved, and the two tone-mapping paths are selected by the
explicit mode flag, the whole image going through exactly one of them. -/
theorem C7_linear_path :
    (∀ (img : List Nat) (i : Nat), i < img.length →
      (processFrame false img).getD i 0 = img.getD i 0 * 64 % 65536) ∧
    (∀ img : List Nat, (processFrame false img).length = img.length) ∧
    (∀ (mode : Bool) (img : List Nat),
      processFrame mode img = renderGamma img ∨
      processFrame mode img = renderLinear img) := by
  refine ⟨?_, ?_, ?_⟩
  · intro img i _
    unfold processFrame renderLinear
    rw [if_neg (by simp)]
    have h0 : (0 : Nat) = 0 * 64 % 65536 := by norm_num
    calc (img.map (fun v => v * 64 % 65536)).getD i 0
        = (img.map (fun v => v * 64 % 65536)).getD i (0 * 64 % 65536) := by rw [← h0]
      _ = img.getD i 0 * 64 % 65536 := List.getD_map _ _ _
  · intro img
    unfold processFrame renderLinear
    rw [if_neg (by simp), List.length_map]
  · intro mode img
    cases mode
    · exact Or.inr (by unfold processFrame; rw [if_neg (by simp)])
    · exact Or.inl (by unfold processFrame; rw [if_pos rfl])

/-- Concrete instantiation of C7_linear_path at the one-sample image
[500] and index 0. -/
theorem C7_linear_path_witness :
    0 < ([500] : List Nat).length ∧
    (processFrame false [500]).getD 0 0 = ([500] : List Nat).getD 0 0 * 64 % 65536 :=
  ⟨by decide, C7_linear_path.1 [500] 0 (by decide)⟩

/-- C8: the batch loop of main produces exactly one outcome per stored
capture (it never aborts early), each item's outcome is process_file of
that item alone, and in the concrete three-item scenario whose second
buffer is malformed the first and third items are still rendered and
written while the second reports its identifier with the shape-mismatch
error. -/
theorem C8_batch_resilience :
    (∀ (demosaic : List Nat → List Nat) (items : List (Nat × List Nat)),
      (runBatch demosaic items).length = items.length) ∧
    (∀ (demosaic : List Nat → List Nat) (items : List (Nat × List Nat)) (i : Nat),
      (runBatch demosaic items)[i]? = items[i]?.map (processItem demosaic)) ∧
    (∀ demosaic : List Nat → List Nat,
      runBatch demosaic
        [(1, List.replicate (1944 * 3240) 0), (2, [0, 0, 0]),
         (3, List.replicate (1944 * 3240) 0)]
      = [ItemOutcome.written 1 (processFrame ENABLE_GAMMA
            (demosaic (List.replicate (2592 * 1944) 0))),
         ItemOutcome.failed 2 ErrKind.shapeMismatch,
         ItemOutcome.written 3 (processFrame ENABLE_GAMMA
            (demosaic (List.replicate (2592 * 1944) 0)))]) := by
  refine ⟨?_, ?_, ?_⟩
  · intro demosaic items
    unfold runBatch
    rw [List.length_map]
  · intro demosaic items i
    unfold runBatch
    rw [List.getElem?_map]
  · intro demosaic
    have hok : ∀ (idx : Nat) (buf m : List Nat),
        unpack_raw10 buf 2592 1944 = UnpackResult.ok m →
        processItem demosaic (idx, buf)
          = ItemOutcome.written idx (processFrame ENABLE_GAMMA (demosaic m)) := by
      intro idx buf m h
      unfold processItem
      rw [h]
    have hsm : ∀ (idx : Nat) (buf : List Nat),
        unpack_raw10 buf 2592 1944 = UnpackResult.shapeMismatch →
        processItem demosaic (idx, buf) = ItemOutcome.failed idx ErrKind.shapeMismatch := by
      intro idx buf h
      unfold processItem
      rw [h]
    have h2 : unpack_raw10 [0, 0, 0] 2592 1944 = UnpackResult.shapeMismatch := by decide
    unfold runBatch
    rw [List.map_cons, List.map_cons, List.map_cons, List.map_nil,
      hok 1 _ _ unpack_zeros, hsm 2 _ h2, hok 3 _ _ unpack_zeros]

/-- C9: every successfully unpacked frame is a dense row-major grid of
exactly width * height samples, each in [0, 1023] (hence fitting unsigned
16-bit storage). -/
theorem C9_unpacked_frame_invariant (b : List Nat) (width height : Nat)
    (m : List Nat)
    (heq : unpack_raw10 b width height = UnpackResult.ok m) :
    m.length = width * height ∧ ∀ v ∈ m, v ≤ 1023 :=
  unpack_ok_spec b width height m heq

/-- Concrete instantiation of C9_unpacked_frame_invariant on the single
block [1, 2, 3, 4, 5] at width 4, height 1. -/
theorem C9_unpacked_frame_invariant_witness :
    unpack_raw10 [1, 2, 3, 4, 5] 4 1 = UnpackResult.ok [5, 9, 12, 16] ∧
    ([5, 9, 12, 16] : List Nat).length = 4 * 1 ∧
    ∀ v ∈ ([5, 9, 12, 16] : List Nat), v ≤ 1023 := by
  have h : unpack_raw10 [1, 2, 3, 4, 5] 4 1 = UnpackResult.ok [5, 9, 12, 16] := by
    decide
  obtain ⟨h1, h2⟩ := C9_unpacked_frame_invariant [1, 2, 3, 4, 5] 4 1 [5, 9, 12, 16] h
  exact ⟨h, h1, h2⟩

/-- C10: for every real gain value, the preview clamps the gain into
[1.0, 9.6] before the power-law mapping, so the displayed ISO estimate is
always a member of STANDARD_ISOS and always lies in [100, 6400]. -/
theorem C10_preview_iso_in_table (g : ℝ) :
    previewISO g ∈ STANDARD_ISOS ∧ 100 ≤ previewISO g ∧ previewISO g ≤ 6400 := by
  have hmem : previewISO g ∈ STANDARD_ISOS := by
    unfold previewISO gainToISO STANDARD_ISOS
    exact minByAbs_mem _ _ _
  have hbound : ∀ s ∈ STANDARD_ISOS, (100 : ℤ) ≤ s ∧ s ≤ 6400 := by
    unfold STANDARD_ISOS
    decide
  exact ⟨hmem, (hbound _ hmem).1, (hbound _ hmem).2⟩
